import Mathlib

/-!
EmployeeManagement-Go: the in-memory employee store.

Shallow embedding of `employee/employee.go` and of the handlers of `utils/http.go`.

* A Go `int` is a 64-bit two's-complement integer: it is an `Int` together with
  `wrap64` wherever the source does arithmetic on it.
* The `float64` salary is carried as its 64-bit IEEE-754 pattern; the store only
  copies it and never computes with it or compares it.
* The Go map `map[int]Employee` is an association list with pairwise distinct keys
  (`AList`).  The order of its entries stands for the order in which a `range`
  loop visits them; Go leaves that order unspecified, which is why the statements
  about one listing call quantify over every store, hence over every order.  Go
  also draws the order anew at every loop: a statement that relates several
  listing calls gives each call the order it visits
  (`ListEmployeesWithPaginationVisiting`).
* A store is one built by `NewEmployeeStore`, so its map is never the `nil` map of
  a zero-valued `EmployeeStore`; neither the repository nor its tests build one.
* A handler is a function of the store and of what it reads from the request (the
  query values, the outcome of decoding the body); it returns the response it
  writes (status and body) and the store after the call.  The handler's own lock
  is held from entry to return and has no counterpart either.
* The mutex `mu` has no counterpart: every method holds the lock from entry to
  return, so each method is one atomic step on the store, written here as a
  function from the store before the call to the result and the store after it.
-/

namespace Employeedb

/-! ## Go values -/

/-- Reduction of an integer to the range of Go's 64-bit `int` (two's complement). -/
def wrap64 (x : Int) : Int :=
  (x + 9223372036854775808) % 18446744073709551616 - 9223372036854775808

/-- The values a Go `int` can hold. -/
def IsInt64 (x : Int) : Prop :=
  -9223372036854775808 ≤ x ∧ x < 9223372036854775808

instance (x : Int) : Decidable (IsInt64 x) := by
  unfold IsInt64
  exact inferInstance

/-- A Go slice value: the `nil` slice, or a non-nil slice with its elements. -/
inductive Slice (α : Type) where
  | nil : Slice α
  | elems : List α → Slice α
  deriving DecidableEq, Repr

/-- The elements of a slice, in order (none for the `nil` slice). -/
def Slice.toList {α : Type} : Slice α → List α
  | Slice.nil => []
  | Slice.elems xs => xs

/-- Go's builtin `append(s, x)`: the result is never `nil`. -/
def Slice.append {α : Type} (s : Slice α) (x : α) : Slice α :=
  Slice.elems (s.toList ++ [x])

/-- Go's builtin `len(s)`. -/
def Slice.len {α : Type} (s : Slice α) : Nat :=
  s.toList.length

/-! ## Data model (employee.go, lines 8-37) -/

/-- Employee record: `ID int`, `Name string`, `Position string`, `Salary float64`. -/
structure Employee where
  ID : Int
  Name : String
  Position : String
  Salary : Nat
  deriving DecidableEq, Repr

/-- The zero value of `Employee`, which a map read of an absent key yields. -/
def zeroEmployee : Employee :=
  { ID := 0, Name := "", Position := "", Salary := 0 }

/-- The Go type `map[int]Employee`. -/
abbrev EmployeeMap : Type :=
  AList (fun _ : Int => Employee)

/-- The values of a map in the order a `range` loop visits its entries. -/
def rangeValues (m : EmployeeMap) : List Employee :=
  m.entries.map Sigma.snd

/-- The store: the field `employees` (the lock `mu` is not modelled). -/
structure EmployeeStore where
  employees : EmployeeMap
  deriving DecidableEq

/-- Source `NewEmployeeStore`: a store over an empty map. -/
def NewEmployeeStore : EmployeeStore :=
  { employees := ∅ }

/-! ## Operations (employee.go, lines 39-121) -/

/-- Source `CreateEmployee`: the returned `error` is `none` for `nil`, else the message. -/
def CreateEmployee (store : EmployeeStore) (emp : Employee) : Option String × EmployeeStore :=
  match store.employees.lookup emp.ID with
  | some _ => (some ("employee with ID " ++ toString emp.ID ++ " already exists"), store)
  | none => (none, { store with employees := store.employees.insert emp.ID emp })

/-- Source `GetEmployeeByID`: the two-valued map read `emp, ok := store.employees[id]`. -/
def GetEmployeeByID (store : EmployeeStore) (id : Int) : Employee × Bool :=
  match store.employees.lookup id with
  | some emp => (emp, true)
  | none => (zeroEmployee, false)

/-- Source `UpdateEmployee`: the returned boolean and the store after the call. -/
def UpdateEmployee (store : EmployeeStore) (emp : Employee) : Bool × EmployeeStore :=
  match store.employees.lookup emp.ID with
  | none => (false, store)
  | some _ => (true, { store with employees := store.employees.insert emp.ID emp })

/-- Source `DeleteEmployee`: the returned boolean and the store after the call. -/
def DeleteEmployee (store : EmployeeStore) (id : Int) : Bool × EmployeeStore :=
  match store.employees.lookup id with
  | none => (false, store)
  | some _ => (true, { store with employees := store.employees.erase id })

/-- Source `ListEmployees`: `var employees []Employee` and one `append` per entry. -/
def ListEmployees (store : EmployeeStore) : Slice Employee :=
  (rangeValues store.employees).foldl (fun employees emp => employees.append emp) Slice.nil

/-- The `range` loop of `ListEmployeesWithPagination` over the entries still to visit,
with the current values of `offset`, `limit` and `paginatedEmployees`. -/
def paginationLoop : List Employee → Int → Int → Slice Employee → Slice Employee
  | [], _, _, paginatedEmployees => paginatedEmployees
  | emp :: rest, offset, limit, paginatedEmployees =>
    if offset > 0 then
      paginationLoop rest (wrap64 (offset - 1)) limit paginatedEmployees
    else if limit = 0 then
      paginatedEmployees
    else
      paginationLoop rest offset (wrap64 (limit - 1)) (paginatedEmployees.append emp)

/-- Source `ListEmployeesWithPagination`. -/
def ListEmployeesWithPagination (store : EmployeeStore) (offset limit : Int) : Slice Employee :=
  paginationLoop (rangeValues store.employees) offset limit Slice.nil

/-- The stores the program can build: `NewEmployeeStore` followed by any calls of
`CreateEmployee`, `UpdateEmployee` and `DeleteEmployee`, whatever they return. -/
inductive Reachable : EmployeeStore → Prop
  | new : Reachable NewEmployeeStore
  | create (s : EmployeeStore) (e : Employee) : Reachable s → Reachable (CreateEmployee s e).2
  | update (s : EmployeeStore) (e : Employee) : Reachable s → Reachable (UpdateEmployee s e).2
  | delete (s : EmployeeStore) (k : Int) : Reachable s → Reachable (DeleteEmployee s k).2

/-- Every record sits under the key equal to its own ID. -/
def KeyIsID (s : EmployeeStore) : Prop :=
  ∀ x ∈ s.employees.entries, x.2.ID = x.1

/-! ## Go library values used by the handlers (utils/http.go) -/

/-- The number written by decimal digits, most significant first, continuing from `acc`;
`none` at the first byte that is not one of `0` to `9`. -/
def parseDecimal : List Char → Nat → Option Nat
  | [], acc => some acc
  | c :: cs, acc =>
    if c.isDigit then parseDecimal cs (acc * 10 + (c.toNat - 48)) else none

/-- Go's `strconv.Atoi` on a 64-bit platform: an optional single sign, then at least one
decimal digit and nothing else, the value within the range of `int`.  The result is `none`
when `Atoi` returns a non-nil error (syntax or range); the handlers never use the number
returned along with an error. -/
def Atoi (s : String) : Option Int :=
  match s.toList with
  | [] => none
  | '-' :: ds =>
    match ds with
    | [] => none
    | _ =>
      match parseDecimal ds 0 with
      | some n => if n ≤ 9223372036854775808 then some (-(n : Int)) else none
      | none => none
  | '+' :: ds =>
    match ds with
    | [] => none
    | _ =>
      match parseDecimal ds 0 with
      | some n => if n < 9223372036854775808 then some (n : Int) else none
      | none => none
  | ds =>
    match parseDecimal ds 0 with
    | some n => if n < 9223372036854775808 then some (n : Int) else none
    | none => none

/-- Whether a 64-bit IEEE-754 pattern is a finite number (its exponent field is not all
ones); `encoding/json` refuses to encode the others. -/
def isFiniteFloat64 (bits : Nat) : Bool :=
  (bits / 4503599627370496) % 2048 != 2047

/-- The JSON value `encoding/json` produces for a `[]Employee`: `null` for the `nil` slice,
an array of objects for any other slice. -/
inductive JsonEmployees where
  | null : JsonEmployees
  | array : List Employee → JsonEmployees
  deriving DecidableEq, Repr

/-- Go's `json.MarshalIndent(employees, "", "    ")`, up to the layout of the text: `none`
when it returns an error, which it does for a salary that is not finite. -/
def MarshalIndent (employees : Slice Employee) : Option JsonEmployees :=
  if employees.toList.all (fun e => isFiniteFloat64 e.Salary) then
    match employees with
    | Slice.nil => some JsonEmployees.null
    | Slice.elems xs => some (JsonEmployees.array xs)
  else
    none

/-- The body of a response. -/
inductive Body where
  | empty : Body
  | text : String → Body
  | employee : Employee → Body
  | employees : JsonEmployees → Body
  deriving DecidableEq, Repr

/-- What a handler writes: the status code and the body (headers are left out). -/
structure Response where
  status : Nat
  body : Body
  deriving DecidableEq, Repr

/-- Go's `http.Error(w, msg, code)`. -/
def httpError (msg : String) (code : Nat) : Response :=
  { status := code, body := Body.text msg }

/-- Go's `w.WriteHeader(code)` followed by `json.NewEncoder(w).Encode(emp)`, whose error is
dropped: a record that cannot be encoded leaves the body empty. -/
def writeEmployee (code : Nat) (emp : Employee) : Response :=
  { status := code, body := if isFiniteFloat64 emp.Salary then Body.employee emp else Body.empty }

/-- The body of a DELETE request as `json.NewDecoder(r.Body).Decode(&deleteRequest)` sees it:
something it rejects, or a JSON object with or without the field `delete_id`. -/
inductive DeleteBody where
  | invalid : DeleteBody
  | object : Option Int → DeleteBody
  deriving DecidableEq, Repr

/-- The decoding of `deleteRequest`: `none` for an error, else the value of its field `ID`,
which `encoding/json` leaves at the zero value when the object has no `delete_id`. -/
def decodeDeleteRequest : DeleteBody → Option Int
  | DeleteBody.invalid => none
  | DeleteBody.object none => some 0
  | DeleteBody.object (some id) => some id

/-! ## Handlers (utils/http.go, lines 84-182)

The body of a POST or PUT request is given by the outcome of
`json.NewDecoder(r.Body).Decode(&emp)`: `none` for an error, else the decoded `emp`.
`HandleEmployeeCreation` works on `eh.Store` and the others on their `store` argument;
`main` passes the same store as both. -/

/-- Source `HandleEmployeeCreation`. -/
def HandleEmployeeCreation (store : EmployeeStore) (body : Option Employee) :
    Response × EmployeeStore :=
  match body with
  | none => (httpError "Invalid request body" 400, store)
  | some emp =>
    match CreateEmployee store emp with
    | (some err, store1) => (httpError err 400, store1)
    | (none, store1) => (writeEmployee 201 emp, store1)

/-- Source `HandleEmployeeUpdate`. -/
def HandleEmployeeUpdate (store : EmployeeStore) (body : Option Employee) :
    Response × EmployeeStore :=
  match body with
  | none => (httpError "Invalid request body" 400, store)
  | some emp =>
    match UpdateEmployee store emp with
    | (false, store1) => (httpError "Employee not found" 404, store1)
    | (true, store1) => (writeEmployee 200 emp, store1)

/-- Lines 142-146 of `HandleEmployeeDeletion`: the deletion once `id` is known. -/
def deleteAndRespond (store : EmployeeStore) (id : Int) : Response × EmployeeStore :=
  match DeleteEmployee store id with
  | (false, store1) => (httpError "Employee not found" 404, store1)
  | (true, store1) => ({ status := 200, body := Body.empty }, store1)

/-- Source `HandleEmployeeDeletion`; `idStr` is `r.URL.Query().Get("id")`, the empty string
when the query has no `id`. -/
def HandleEmployeeDeletion (store : EmployeeStore) (idStr : String) (body : DeleteBody) :
    Response × EmployeeStore :=
  if idStr ≠ "" then
    match Atoi idStr with
    | none => (httpError "Invalid employee ID" 400, store)
    | some id => deleteAndRespond store id
  else
    match decodeDeleteRequest body with
    | none => (httpError "Invalid request body" 400, store)
    | some id => deleteAndRespond store id

/-- Lines 155-158 of `HandleAllEmployeesRetrieval`: the page number in use. -/
def parsePage (pageStr : String) : Int :=
  match Atoi pageStr with
  | none => 1
  | some page => if page < 1 then 1 else page

/-- Lines 159-162 of `HandleAllEmployeesRetrieval`: the page size in use. -/
def parsePerPage (perPageStr : String) : Int :=
  match Atoi perPageStr with
  | none => 10
  | some perPage => if perPage < 1 then 10 else perPage

/-- Line 165 of `HandleAllEmployeesRetrieval`: `offset := (page - 1) * perPage` in Go's
wrapping arithmetic. -/
def pageOffset (page perPage : Int) : Int :=
  wrap64 (wrap64 (page - 1) * perPage)

/-- Lines 170-181 of `HandleAllEmployeesRetrieval`: the response for the listed employees. -/
def writeEmployees (employees : Slice Employee) : Response :=
  match MarshalIndent employees with
  | none => httpError "Failed to format response" 500
  | some response => { status := 200, body := Body.employees response }

/-- Source `HandleAllEmployeesRetrieval`; `pageStr` and `perPageStr` are the query values of
`page` and `perPage`.  The store is only read. -/
def HandleAllEmployeesRetrieval (store : EmployeeStore) (pageStr perPageStr : String) :
    Response :=
  writeEmployees
    (ListEmployeesWithPagination store
      (pageOffset (parsePage pageStr) (parsePerPage perPageStr)) (parsePerPage perPageStr))

/-- The employee of the repository's tests. -/
def shivangi : Employee :=
  { ID := 1, Name := "Shivangi", Position := "Software Engineer", Salary := 4681608360884174848 }

/-- The second employee of `TestEmployeeStore_ListEmployees`. -/
def rashmi : Employee :=
  { ID := 2, Name := "Rashmi", Position := "Data Analyst", Salary := 4680921166116814848 }

/-- The record `TestEmployeeStore_UpdateEmployee` writes over `shivangi`, here with every
field but the ID changed. -/
def shivani : Employee :=
  { ID := 1, Name := "Shivani", Position := "Tester", Salary := 4680673776000565248 }

/-- A store holding `shivangi` only. -/
def storeOne : EmployeeStore :=
  (CreateEmployee NewEmployeeStore shivangi).2

/-- A store holding `shivangi` and `rashmi`. -/
def storeTwo : EmployeeStore :=
  (CreateEmployee storeOne rashmi).2

/-- The record of the end-to-end scenario: `{"id":1,"name":"A","position":"Eng","salary":1000}`
as decoded (the salary is the pattern of `1000.0`). -/
def employeeA : Employee :=
  { ID := 1, Name := "A", Position := "Eng", Salary := 4652007308841189376 }

/-- The body of the PUT of the scenario: `employeeA` with another salary. -/
def employeeAPaid (salary : Nat) : Employee :=
  { ID := 1, Name := "A", Position := "Eng", Salary := salary }

/-- The store after the POST of `employeeA`. -/
def afterPost (s : EmployeeStore) : EmployeeStore :=
  (HandleEmployeeCreation s (some employeeA)).2

/-- The store after the POST and then the PUT of `employeeA` with another salary. -/
def afterPut (s : EmployeeStore) (salary : Nat) : EmployeeStore :=
  (HandleEmployeeUpdate (afterPost s) (some (employeeAPaid salary))).2

/-- The store after the POST, the PUT and then the DELETE with the query `id=1`. -/
def afterDelete (s : EmployeeStore) (salary : Nat) (body : DeleteBody) : EmployeeStore :=
  (HandleEmployeeDeletion (afterPut s salary) "1" body).2

/-- An employee whose ID is 0, as a POST body without the field `id` creates it. -/
def unnumbered : Employee :=
  { ID := 0, Name := "Nobody", Position := "", Salary := 0 }

/-- A store holding `unnumbered` and `shivangi`. -/
def storeWithZero : EmployeeStore :=
  (CreateEmployee storeOne unnumbered).2

/-! ## Map reads -/

theorem lookup_of_mem {m : EmployeeMap} {k : Int} (h : k ∈ m) : ∃ v, m.lookup k = some v :=
  Option.isSome_iff_exists.mp (AList.lookup_isSome.mpr h)

theorem lookup_of_not_mem {m : EmployeeMap} {k : Int} (h : k ∉ m) : m.lookup k = none :=
  AList.lookup_eq_none.mpr h

theorem get_of_lookup_some {s : EmployeeStore} {k : Int} {v : Employee}
    (h : s.employees.lookup k = some v) : GetEmployeeByID s k = (v, true) := by
  simp [GetEmployeeByID, h]

theorem get_of_lookup_none {s : EmployeeStore} {k : Int}
    (h : s.employees.lookup k = none) : GetEmployeeByID s k = (zeroEmployee, false) := by
  simp [GetEmployeeByID, h]

theorem delete_of_lookup_none {s : EmployeeStore} {k : Int}
    (h : s.employees.lookup k = none) : DeleteEmployee s k = (false, s) := by
  simp [DeleteEmployee, h]

/-! ## Create, read, update, delete -/

/-- C1: when the ID of `e` is not a key of the store, `CreateEmployee` returns no error and
`GetEmployeeByID` of that ID on the resulting store returns `(e, true)`, all four fields being
those of `e`. -/
theorem create_then_get (s : EmployeeStore) (e : Employee) (h : e.ID ∉ s.employees) :
    (CreateEmployee s e).1 = none ∧
    GetEmployeeByID (CreateEmployee s e).2 e.ID = (e, true) ∧
    (GetEmployeeByID (CreateEmployee s e).2 e.ID).1.ID = e.ID ∧
    (GetEmployeeByID (CreateEmployee s e).2 e.ID).1.Name = e.Name ∧
    (GetEmployeeByID (CreateEmployee s e).2 e.ID).1.Position = e.Position ∧
    (GetEmployeeByID (CreateEmployee s e).2 e.ID).1.Salary = e.Salary := by
  have hc : CreateEmployee s e = (none, { s with employees := s.employees.insert e.ID e }) := by
    simp [CreateEmployee, lookup_of_not_mem h]
  have hg : GetEmployeeByID (CreateEmployee s e).2 e.ID = (e, true) := by
    rw [hc]
    exact get_of_lookup_some (AList.lookup_insert s.employees)
  rw [hg]
  simp [hc]

theorem create_then_get_witness :
    rashmi.ID ∉ storeOne.employees ∧
    (CreateEmployee storeOne rashmi).1 = none ∧
    GetEmployeeByID (CreateEmployee storeOne rashmi).2 rashmi.ID = (rashmi, true) ∧
    (GetEmployeeByID (CreateEmployee storeOne rashmi).2 rashmi.ID).1.ID = rashmi.ID ∧
    (GetEmployeeByID (CreateEmployee storeOne rashmi).2 rashmi.ID).1.Name = rashmi.Name ∧
    (GetEmployeeByID (CreateEmployee storeOne rashmi).2 rashmi.ID).1.Position = rashmi.Position ∧
    (GetEmployeeByID (CreateEmployee storeOne rashmi).2 rashmi.ID).1.Salary = rashmi.Salary :=
  ⟨by decide, create_then_get storeOne rashmi (by decide)⟩

/-- C2: when the store already holds an entry with identifier `k`, `CreateEmployee` of any
employee with that ID returns the error and the store after the call is the store before it,
so `GetEmployeeByID` answers every identifier, `k` included, as before. -/
theorem create_duplicate (s : EmployeeStore) (k : Int) (e : Employee)
    (hk : k ∈ s.employees) (he : e.ID = k) :
    (CreateEmployee s e).1 = some ("employee with ID " ++ toString k ++ " already exists") ∧
    (CreateEmployee s e).2 = s ∧
    ∀ j, GetEmployeeByID (CreateEmployee s e).2 j = GetEmployeeByID s j := by
  subst he
  obtain ⟨v, hv⟩ := lookup_of_mem hk
  have hc : CreateEmployee s e =
      (some ("employee with ID " ++ toString e.ID ++ " already exists"), s) := by
    simp [CreateEmployee, hv]
  simp [hc]

theorem create_duplicate_witness :
    (1 : Int) ∈ storeOne.employees ∧ ({ shivangi with Name := "Other" } : Employee).ID = 1 ∧
    (CreateEmployee storeOne { shivangi with Name := "Other" }).1 =
      some ("employee with ID " ++ toString (1 : Int) ++ " already exists") ∧
    (CreateEmployee storeOne { shivangi with Name := "Other" }).2 = storeOne ∧
    ∀ j, GetEmployeeByID (CreateEmployee storeOne { shivangi with Name := "Other" }).2 j =
      GetEmployeeByID storeOne j :=
  ⟨by decide, rfl, create_duplicate storeOne 1 { shivangi with Name := "Other" } (by decide) rfl⟩

/-- C3: when the store holds an entry with identifier `k`, `UpdateEmployee` of an employee
with that ID returns true and `GetEmployeeByID k` then returns that employee whole: name,
position and salary are the new ones. -/
theorem update_present (s : EmployeeStore) (k : Int) (e : Employee)
    (hk : k ∈ s.employees) (he : e.ID = k) :
    (UpdateEmployee s e).1 = true ∧
    GetEmployeeByID (UpdateEmployee s e).2 k = (e, true) ∧
    (GetEmployeeByID (UpdateEmployee s e).2 k).1.Name = e.Name ∧
    (GetEmployeeByID (UpdateEmployee s e).2 k).1.Position = e.Position ∧
    (GetEmployeeByID (UpdateEmployee s e).2 k).1.Salary = e.Salary := by
  subst he
  obtain ⟨v, hv⟩ := lookup_of_mem hk
  have hu : UpdateEmployee s e = (true, { s with employees := s.employees.insert e.ID e }) := by
    simp [UpdateEmployee, hv]
  have hg : GetEmployeeByID (UpdateEmployee s e).2 e.ID = (e, true) := by
    rw [hu]
    exact get_of_lookup_some (AList.lookup_insert s.employees)
  rw [hg]
  simp [hu]

theorem update_present_witness :
    (1 : Int) ∈ storeOne.employees ∧ shivani.ID = 1 ∧
    (UpdateEmployee storeOne shivani).1 = true ∧
    GetEmployeeByID (UpdateEmployee storeOne shivani).2 1 = (shivani, true) ∧
    (GetEmployeeByID (UpdateEmployee storeOne shivani).2 1).1.Name = shivani.Name ∧
    (GetEmployeeByID (UpdateEmployee storeOne shivani).2 1).1.Position = shivani.Position ∧
    (GetEmployeeByID (UpdateEmployee storeOne shivani).2 1).1.Salary = shivani.Salary :=
  ⟨by decide, rfl, update_present storeOne 1 shivani (by decide) rfl⟩

/-- C4: when the ID of `e` is not a key of the store, `UpdateEmployee` returns false and the
store after the call is the store before it; `e` is not inserted, `GetEmployeeByID` of its ID
still answers not found. -/
theorem update_absent (s : EmployeeStore) (e : Employee) (h : e.ID ∉ s.employees) :
    (UpdateEmployee s e).1 = false ∧
    (UpdateEmployee s e).2 = s ∧
    (GetEmployeeByID (UpdateEmployee s e).2 e.ID).2 = false := by
  have hu : UpdateEmployee s e = (false, s) := by
    simp [UpdateEmployee, lookup_of_not_mem h]
  simp [hu, get_of_lookup_none (lookup_of_not_mem h)]

theorem update_absent_witness :
    rashmi.ID ∉ storeOne.employees ∧
    (UpdateEmployee storeOne rashmi).1 = false ∧
    (UpdateEmployee storeOne rashmi).2 = storeOne ∧
    (GetEmployeeByID (UpdateEmployee storeOne rashmi).2 rashmi.ID).2 = false :=
  ⟨by decide, update_absent storeOne rashmi (by decide)⟩

/-- C5: when the store holds an entry with identifier `k`, `DeleteEmployee k` returns true,
`GetEmployeeByID k` on the resulting store answers not found, and a second `DeleteEmployee k`
returns false. -/
theorem delete_present (s : EmployeeStore) (k : Int) (hk : k ∈ s.employees) :
    (DeleteEmployee s k).1 = true ∧
    GetEmployeeByID (DeleteEmployee s k).2 k = (zeroEmployee, false) ∧
    (DeleteEmployee (DeleteEmployee s k).2 k).1 = false := by
  obtain ⟨v, hv⟩ := lookup_of_mem hk
  have hd : DeleteEmployee s k = (true, { s with employees := s.employees.erase k }) := by
    simp [DeleteEmployee, hv]
  have hl : (DeleteEmployee s k).2.employees.lookup k = none := by
    rw [hd]
    exact AList.lookup_erase k s.employees
  refine ⟨by simp [hd], get_of_lookup_none hl, ?_⟩
  rw [delete_of_lookup_none hl]

theorem delete_present_witness :
    (1 : Int) ∈ storeTwo.employees ∧
    (DeleteEmployee storeTwo 1).1 = true ∧
    GetEmployeeByID (DeleteEmployee storeTwo 1).2 1 = (zeroEmployee, false) ∧
    (DeleteEmployee (DeleteEmployee storeTwo 1).2 1).1 = false :=
  ⟨by decide, delete_present storeTwo 1 (by decide)⟩

/-- C6: when `k` is not a key of the store, `DeleteEmployee k` returns false and the store
after the call is the store before it: every `GetEmployeeByID`, `ListEmployees` and every
page of `ListEmployeesWithPagination` are as before. -/
theorem delete_absent (s : EmployeeStore) (k : Int) (hk : k ∉ s.employees) :
    (DeleteEmployee s k).1 = false ∧
    (DeleteEmployee s k).2 = s ∧
    (∀ j, GetEmployeeByID (DeleteEmployee s k).2 j = GetEmployeeByID s j) ∧
    ListEmployees (DeleteEmployee s k).2 = ListEmployees s ∧
    ∀ offset limit, ListEmployeesWithPagination (DeleteEmployee s k).2 offset limit =
      ListEmployeesWithPagination s offset limit := by
  have hd : DeleteEmployee s k = (false, s) :=
    delete_of_lookup_none (lookup_of_not_mem hk)
  simp [hd]

theorem delete_absent_witness :
    (2 : Int) ∉ storeOne.employees ∧
    (DeleteEmployee storeOne 2).1 = false ∧
    (DeleteEmployee storeOne 2).2 = storeOne ∧
    (∀ j, GetEmployeeByID (DeleteEmployee storeOne 2).2 j = GetEmployeeByID storeOne j) ∧
    ListEmployees (DeleteEmployee storeOne 2).2 = ListEmployees storeOne ∧
    ∀ offset limit, ListEmployeesWithPagination (DeleteEmployee storeOne 2).2 offset limit =
      ListEmployeesWithPagination storeOne offset limit :=
  ⟨by decide, delete_absent storeOne 2 (by decide)⟩

/-! ## Listing -/

theorem toList_nil {α : Type} : (Slice.nil : Slice α).toList = [] :=
  rfl

theorem toList_append {α : Type} (s : Slice α) (x : α) :
    (s.append x).toList = s.toList ++ [x] :=
  rfl

theorem foldl_append_toList (L : List Employee) (acc : Slice Employee) :
    (L.foldl (fun employees emp => employees.append emp) acc).toList = acc.toList ++ L := by
  induction L generalizing acc with
  | nil => simp
  | cons emp rest ih => rw [List.foldl_cons, ih, toList_append, List.append_assoc]; rfl

theorem ListEmployees_toList (s : EmployeeStore) :
    (ListEmployees s).toList = rangeValues s.employees := by
  unfold ListEmployees
  rw [foldl_append_toList, toList_nil, List.nil_append]

theorem keyIsID_insert {s : EmployeeStore} (h : KeyIsID s) (e : Employee) :
    KeyIsID { s with employees := s.employees.insert e.ID e } := by
  intro x hx
  simp only [AList.insert_entries, List.mem_cons] at hx
  rcases hx with rfl | hx
  · rfl
  · exact h x ((List.kerase_sublist e.ID s.employees.entries).subset hx)

theorem keyIsID_erase {s : EmployeeStore} (h : KeyIsID s) (k : Int) :
    KeyIsID { s with employees := s.employees.erase k } := by
  intro x hx
  exact h x ((List.kerase_sublist k s.employees.entries).subset hx)

theorem keyIsID_of_reachable {s : EmployeeStore} (hs : Reachable s) : KeyIsID s := by
  induction hs with
  | new =>
    intro x hx
    simp [NewEmployeeStore] at hx
  | create s e _ ih =>
    unfold CreateEmployee
    split
    · exact ih
    · exact keyIsID_insert ih e
  | update s e _ ih =>
    unfold UpdateEmployee
    split
    · exact ih
    · exact keyIsID_insert ih e
  | delete s k _ ih =>
    unfold DeleteEmployee
    split
    · exact ih
    · exact keyIsID_erase ih k

theorem mem_rangeValues_iff {s : EmployeeStore} (h : KeyIsID s) (e : Employee) :
    e ∈ rangeValues s.employees ↔ s.employees.lookup e.ID = some e := by
  rw [← Option.mem_def, AList.mem_lookup_iff]
  unfold rangeValues
  constructor
  · intro he
    obtain ⟨x, hx, rfl⟩ := List.mem_map.mp he
    have hkey := h x hx
    obtain ⟨k, v⟩ := x
    simp only at hkey
    subst hkey
    exact hx
  · intro he
    exact List.mem_map.mpr ⟨⟨e.ID, e⟩, he, rfl⟩

theorem get_eq_iff_lookup (s : EmployeeStore) (k : Int) (e : Employee) :
    GetEmployeeByID s k = (e, true) ↔ s.employees.lookup k = some e := by
  unfold GetEmployeeByID
  cases s.employees.lookup k <;> simp

theorem nodup_rangeValues {s : EmployeeStore} (h : KeyIsID s) :
    (rangeValues s.employees).Nodup := by
  have hk : (s.employees.entries.map Sigma.fst).Nodup := s.employees.nodupKeys
  have hm : s.employees.entries.map Sigma.fst =
      (s.employees.entries.map Sigma.snd).map Employee.ID := by
    rw [List.map_map]
    exact List.map_congr_left (fun x hx => (h x hx).symm)
  rw [hm] at hk
  exact List.Nodup.of_map Employee.ID hk

/-- C7: on every store the program can build, `ListEmployees` returns the stored records, each
once and nothing else: the result is a permutation of the values of the map and has no
repetition, its length is the number of entries, and an employee is in the result exactly
when `GetEmployeeByID` of its ID returns it. -/
theorem list_employees_exact (s : EmployeeStore) (hs : Reachable s) :
    (ListEmployees s).toList.Perm (rangeValues s.employees) ∧
    (ListEmployees s).toList.Nodup ∧
    (ListEmployees s).len = s.employees.keys.length ∧
    ∀ e, e ∈ (ListEmployees s).toList ↔ GetEmployeeByID s e.ID = (e, true) := by
  have hinv := keyIsID_of_reachable hs
  refine ⟨?_, ?_, ?_, ?_⟩
  · rw [ListEmployees_toList]
  · rw [ListEmployees_toList]
    exact nodup_rangeValues hinv
  · simp [Slice.len, ListEmployees_toList, rangeValues, AList.keys, List.keys]
  · intro e
    rw [ListEmployees_toList, mem_rangeValues_iff hinv, get_eq_iff_lookup]

theorem list_employees_exact_witness :
    Reachable storeTwo ∧
    (ListEmployees storeTwo).toList.Perm (rangeValues storeTwo.employees) ∧
    (ListEmployees storeTwo).toList.Nodup ∧
    (ListEmployees storeTwo).len = storeTwo.employees.keys.length ∧
    ∀ e, e ∈ (ListEmployees storeTwo).toList ↔ GetEmployeeByID storeTwo e.ID = (e, true) :=
  ⟨Reachable.create _ rashmi (Reachable.create _ shivangi Reachable.new),
    list_employees_exact storeTwo
      (Reachable.create _ rashmi (Reachable.create _ shivangi Reachable.new))⟩

/-! ## Pagination -/

theorem wrap64_pred {x : Int} (h0 : 0 < x) (h1 : IsInt64 x) : wrap64 (x - 1) = x - 1 := by
  unfold IsInt64 at h1
  unfold wrap64
  omega

theorem isInt64_pred {x : Int} (h0 : 0 < x) (h1 : IsInt64 x) : IsInt64 (x - 1) := by
  unfold IsInt64 at *
  omega

theorem paginationLoop_toList (L : List Employee) :
    ∀ (offset limit : Int) (acc : Slice Employee),
      0 ≤ offset → IsInt64 offset → 0 ≤ limit → IsInt64 limit →
      (paginationLoop L offset limit acc).toList =
        acc.toList ++ (L.drop offset.toNat).take limit.toNat := by
  induction L with
  | nil =>
    intro offset limit acc _ _ _ _
    simp [paginationLoop]
  | cons emp rest ih =>
    intro offset limit acc ho ho64 hl hl64
    unfold paginationLoop
    by_cases hpos : offset > 0
    · rw [if_pos hpos, wrap64_pred hpos ho64,
        ih (offset - 1) limit acc (by omega) (isInt64_pred hpos ho64) hl hl64]
      have hn : offset.toNat = (offset - 1).toNat + 1 := by omega
      rw [hn, List.drop_succ_cons]
    · rw [if_neg hpos]
      have hz : offset = 0 := by omega
      subst hz
      by_cases hlim : limit = 0
      · rw [if_pos hlim]
        subst hlim
        simp
      · rw [if_neg hlim]
        have hlpos : 0 < limit := by omega
        rw [wrap64_pred hlpos hl64,
          ih 0 (limit - 1) (acc.append emp) (le_refl 0) ho64 (by omega)
            (isInt64_pred hlpos hl64),
          toList_append]
        have hn : limit.toNat = (limit - 1).toNat + 1 := by omega
        rw [hn]
        simp

theorem paginationLoop_skip (L : List Employee) :
    ∀ (offset limit : Int) (acc : Slice Employee),
      (L.length : Int) ≤ offset → IsInt64 offset →
      paginationLoop L offset limit acc = acc := by
  induction L with
  | nil =>
    intro offset limit acc _ _
    rfl
  | cons emp rest ih =>
    intro offset limit acc ho ho64
    have hlen : ((emp :: rest).length : Int) = (rest.length : Int) + 1 := by
      simp
    have hpos : offset > 0 := by omega
    unfold paginationLoop
    rw [if_pos hpos, wrap64_pred hpos ho64]
    exact ih (offset - 1) limit acc (by omega) (isInt64_pred hpos ho64)

/-- C8: for a store whose `range` order is `L`, and for `offset` and `limit` that are
non-negative Go ints, `ListEmployeesWithPagination offset limit` returns the first `limit`
elements of `L` after dropping its first `offset` elements, in the order of `L`; it has at
most `limit` elements, exactly `min limit (max 0 (|L| - offset))` of them. -/
theorem pagination_take_drop (s : EmployeeStore) (L : List Employee) (offset limit : Int)
    (hL : rangeValues s.employees = L)
    (ho : 0 ≤ offset) (ho64 : IsInt64 offset) (hl : 0 ≤ limit) (hl64 : IsInt64 limit) :
    (ListEmployeesWithPagination s offset limit).toList =
      (L.drop offset.toNat).take limit.toNat ∧
    ((ListEmployeesWithPagination s offset limit).len : Int) ≤ limit ∧
    ((ListEmployeesWithPagination s offset limit).len : Int) =
      min limit (max 0 ((L.length : Int) - offset)) := by
  have hlist : (ListEmployeesWithPagination s offset limit).toList =
      (L.drop offset.toNat).take limit.toNat := by
    unfold ListEmployeesWithPagination
    rw [hL, paginationLoop_toList L offset limit Slice.nil ho ho64 hl hl64, toList_nil,
      List.nil_append]
  have hlen : (ListEmployeesWithPagination s offset limit).len =
      min limit.toNat (L.length - offset.toNat) := by
    unfold Slice.len
    rw [hlist, List.length_take, List.length_drop]
  refine ⟨hlist, ?_, ?_⟩
  · rw [hlen]
    omega
  · rw [hlen]
    omega

theorem pagination_take_drop_witness :
    rangeValues storeTwo.employees = [rashmi, shivangi] ∧
    (0 : Int) ≤ 1 ∧ IsInt64 1 ∧ (0 : Int) ≤ 5 ∧ IsInt64 5 ∧
    (ListEmployeesWithPagination storeTwo 1 5).toList =
      ([rashmi, shivangi].drop (1 : Int).toNat).take (5 : Int).toNat ∧
    ((ListEmployeesWithPagination storeTwo 1 5).len : Int) ≤ 5 ∧
    ((ListEmployeesWithPagination storeTwo 1 5).len : Int) =
      min 5 (max 0 ((([rashmi, shivangi] : List Employee).length : Int) - 1)) :=
  ⟨by decide, by decide, by decide, by decide, by decide,
    pagination_take_drop storeTwo [rashmi, shivangi] 1 5 (by decide) (by decide) (by decide)
      (by decide) (by decide)⟩

/-- C9 (the code at a negative limit): on the store holding one employee,
`ListEmployeesWithPagination 0 (-1)` returns that employee, not an empty list: the loop
stops on `limit == 0` only, and a limit that starts below zero moves away from it. -/
theorem pagination_negative_limit :
    (-1 : Int) ≤ 0 ∧ IsInt64 (-1) ∧
    ListEmployeesWithPagination storeOne 0 (-1) = Slice.elems [shivangi] ∧
    (ListEmployeesWithPagination storeOne 0 (-1)).toList ≠ [] := by
  decide

/-- C10: for a store with `n` entries, a Go int `offset` that is at least `n` and any `limit`,
`ListEmployeesWithPagination offset limit` returns an empty list (the `nil` slice: nothing is
appended). -/
theorem pagination_offset_beyond (s : EmployeeStore) (n : Nat) (offset limit : Int)
    (hn : s.employees.keys.length = n) (ho : (n : Int) ≤ offset) (ho64 : IsInt64 offset) :
    (ListEmployeesWithPagination s offset limit).toList = [] ∧
    ListEmployeesWithPagination s offset limit = Slice.nil := by
  have hlen : ((rangeValues s.employees).length : Int) ≤ offset := by
    have : (rangeValues s.employees).length = n := by
      rw [← hn]
      simp [rangeValues, AList.keys, List.keys]
    rw [this]
    exact ho
  have hnil : ListEmployeesWithPagination s offset limit = Slice.nil :=
    paginationLoop_skip (rangeValues s.employees) offset limit Slice.nil hlen ho64
  rw [hnil]
  exact ⟨rfl, rfl⟩

theorem pagination_offset_beyond_witness :
    storeTwo.employees.keys.length = 2 ∧ ((2 : Nat) : Int) ≤ 2 ∧ IsInt64 2 ∧
    (ListEmployeesWithPagination storeTwo 2 (-3)).toList = [] ∧
    ListEmployeesWithPagination storeTwo 2 (-3) = Slice.nil :=
  ⟨by decide, by decide, by decide,
    pagination_offset_beyond storeTwo 2 2 (-3) (by decide) (by decide) (by decide)⟩

/-! ## The identifier invariant -/

theorem ids_rangeValues {s : EmployeeStore} (h : KeyIsID s) :
    (rangeValues s.employees).map Employee.ID = s.employees.keys := by
  unfold rangeValues AList.keys List.keys
  rw [List.map_map]
  exact List.map_congr_left (fun x hx => h x hx)

/-- C11: in every store reached from `NewEmployeeStore` by calls of `CreateEmployee`,
`UpdateEmployee` and `DeleteEmployee`, successful or not, each record sits under the key equal
to its own ID; the IDs of the employees `ListEmployees` returns are pairwise distinct, so two
listed employees with the same ID are one and the same. -/
theorem reachable_ids_distinct (s : EmployeeStore) (hs : Reachable s) :
    KeyIsID s ∧
    ((ListEmployees s).toList.map Employee.ID).Nodup ∧
    ∀ e1 ∈ (ListEmployees s).toList, ∀ e2 ∈ (ListEmployees s).toList,
      e1.ID = e2.ID → e1 = e2 := by
  have hinv := keyIsID_of_reachable hs
  have hnd : ((ListEmployees s).toList.map Employee.ID).Nodup := by
    rw [ListEmployees_toList, ids_rangeValues hinv]
    exact s.employees.nodupKeys
  exact ⟨hinv, hnd, fun e1 h1 e2 h2 h => List.inj_on_of_nodup_map hnd h1 h2 h⟩

theorem reachable_ids_distinct_witness :
    Reachable (DeleteEmployee (UpdateEmployee storeTwo shivani).2 2).2 ∧
    KeyIsID (DeleteEmployee (UpdateEmployee storeTwo shivani).2 2).2 ∧
    ((ListEmployees (DeleteEmployee (UpdateEmployee storeTwo shivani).2 2).2).toList.map
      Employee.ID).Nodup ∧
    ∀ e1 ∈ (ListEmployees (DeleteEmployee (UpdateEmployee storeTwo shivani).2 2).2).toList,
      ∀ e2 ∈ (ListEmployees (DeleteEmployee (UpdateEmployee storeTwo shivani).2 2).2).toList,
        e1.ID = e2.ID → e1 = e2 :=
  ⟨Reachable.delete _ 2 (Reachable.update _ shivani
      (Reachable.create _ rashmi (Reachable.create _ shivangi Reachable.new))),
    reachable_ids_distinct _ (Reachable.delete _ 2 (Reachable.update _ shivani
      (Reachable.create _ rashmi (Reachable.create _ shivangi Reachable.new))))⟩

/-! ## The query parameters of the paginated listing -/

theorem wrap64_of_isInt64 {x : Int} (h : IsInt64 x) : wrap64 x = x := by
  unfold IsInt64 at h
  unfold wrap64
  omega

theorem parsePage_ge_one (pageStr : String) : 1 ≤ parsePage pageStr := by
  unfold parsePage
  split
  · exact le_refl 1
  · split <;> omega

theorem parsePerPage_ge_one (perPageStr : String) : 1 ≤ parsePerPage perPageStr := by
  unfold parsePerPage
  split
  · decide
  · split <;> omega

theorem atoi_isInt64 {s : String} {n : Int} (h : Atoi s = some n) : IsInt64 n := by
  unfold Atoi at h
  unfold IsInt64
  split at h
  · exact absurd h (by simp)
  · split at h
    · exact absurd h (by simp)
    · split at h
      · split at h
        · simp only [Option.some.injEq] at h
          omega
        · exact absurd h (by simp)
      · exact absurd h (by simp)
  · split at h
    · exact absurd h (by simp)
    · split at h
      · split at h
        · simp only [Option.some.injEq] at h
          omega
        · exact absurd h (by simp)
      · exact absurd h (by simp)
  · split at h
    · split at h
      · simp only [Option.some.injEq] at h
        omega
      · exact absurd h (by simp)
    · exact absurd h (by simp)

theorem parsePage_isInt64 (pageStr : String) : IsInt64 (parsePage pageStr) := by
  unfold parsePage
  split
  · decide
  · rename_i page h
    split
    · decide
    · exact atoi_isInt64 h

theorem parsePerPage_isInt64 (perPageStr : String) : IsInt64 (parsePerPage perPageStr) := by
  unfold parsePerPage
  split
  · decide
  · rename_i perPage h
    split
    · decide
    · exact atoi_isInt64 h

/-- C12: `HandleAllEmployeesRetrieval` uses page 1 when `page` does not parse or parses below
1, page size 10 when `perPage` does not parse or parses below 1, and the parsed values
otherwise; it answers with the result of `ListEmployeesWithPagination` at
`offset = (page - 1) * perPage`, computed in Go's `int`, and `limit = perPage`; the offset is
the exact product whenever that product is a Go `int`. -/
theorem retrieval_parameters (s : EmployeeStore) (pageStr perPageStr : String) :
    (Atoi pageStr = none → parsePage pageStr = 1) ∧
    (∀ p, Atoi pageStr = some p → p < 1 → parsePage pageStr = 1) ∧
    (∀ p, Atoi pageStr = some p → 1 ≤ p → parsePage pageStr = p) ∧
    (Atoi perPageStr = none → parsePerPage perPageStr = 10) ∧
    (∀ n, Atoi perPageStr = some n → n < 1 → parsePerPage perPageStr = 10) ∧
    (∀ n, Atoi perPageStr = some n → 1 ≤ n → parsePerPage perPageStr = n) ∧
    HandleAllEmployeesRetrieval s pageStr perPageStr =
      writeEmployees (ListEmployeesWithPagination s
        (wrap64 ((parsePage pageStr - 1) * parsePerPage perPageStr))
        (parsePerPage perPageStr)) ∧
    (IsInt64 ((parsePage pageStr - 1) * parsePerPage perPageStr) →
      HandleAllEmployeesRetrieval s pageStr perPageStr =
        writeEmployees (ListEmployeesWithPagination s
          ((parsePage pageStr - 1) * parsePerPage perPageStr) (parsePerPage perPageStr))) := by
  have hsub : wrap64 (parsePage pageStr - 1) = parsePage pageStr - 1 := by
    have h1 := parsePage_ge_one pageStr
    have h2 := parsePage_isInt64 pageStr
    exact wrap64_of_isInt64 (isInt64_pred (by omega) h2)
  have hcall : HandleAllEmployeesRetrieval s pageStr perPageStr =
      writeEmployees (ListEmployeesWithPagination s
        (wrap64 ((parsePage pageStr - 1) * parsePerPage perPageStr))
        (parsePerPage perPageStr)) := by
    unfold HandleAllEmployeesRetrieval pageOffset
    rw [hsub]
  refine ⟨?_, ?_, ?_, ?_, ?_, ?_, hcall, ?_⟩
  · intro h
    simp [parsePage, h]
  · intro p h hp
    simp [parsePage, h, hp]
  · intro p h hp
    have : ¬ p < 1 := by omega
    simp [parsePage, h, this]
  · intro h
    simp [parsePerPage, h]
  · intro n h hn
    simp [parsePerPage, h, hn]
  · intro n h hn
    have : ¬ n < 1 := by omega
    simp [parsePerPage, h, this]
  · intro h
    rw [hcall, wrap64_of_isInt64 h]

theorem retrieval_parameters_witness :
    parsePage "abc" = 1 ∧ parsePage "0" = 1 ∧ parsePage "3" = 3 ∧
    parsePerPage "" = 10 ∧ parsePerPage "-4" = 10 ∧ parsePerPage "2" = 2 ∧
    HandleAllEmployeesRetrieval storeTwo "3" "2" =
      writeEmployees (ListEmployeesWithPagination storeTwo
        ((parsePage "3" - 1) * parsePerPage "2") (parsePerPage "2")) :=
  ⟨(retrieval_parameters storeTwo "abc" "").1 (by decide),
    (retrieval_parameters storeTwo "0" "-4").2.1 0 (by decide) (by decide),
    (retrieval_parameters storeTwo "3" "2").2.2.1 3 (by decide) (by decide),
    (retrieval_parameters storeTwo "abc" "").2.2.2.1 (by decide),
    (retrieval_parameters storeTwo "0" "-4").2.2.2.2.1 (-4) (by decide) (by decide),
    (retrieval_parameters storeTwo "3" "2").2.2.2.2.2.1 2 (by decide) (by decide),
    (retrieval_parameters storeTwo "3" "2").2.2.2.2.2.2.2 (by decide)⟩

/-! ## The handlers over the store -/

theorem creation_of_absent {s : EmployeeStore} {e : Employee}
    (h : s.employees.lookup e.ID = none) :
    HandleEmployeeCreation s (some e) =
      (writeEmployee 201 e, { s with employees := s.employees.insert e.ID e }) := by
  simp [HandleEmployeeCreation, CreateEmployee, h]

theorem creation_of_present {s : EmployeeStore} {e v : Employee}
    (h : s.employees.lookup e.ID = some v) :
    HandleEmployeeCreation s (some e) =
      (httpError ("employee with ID " ++ toString e.ID ++ " already exists") 400, s) := by
  simp [HandleEmployeeCreation, CreateEmployee, h]

theorem update_of_absent {s : EmployeeStore} {e : Employee}
    (h : s.employees.lookup e.ID = none) :
    HandleEmployeeUpdate s (some e) = (httpError "Employee not found" 404, s) := by
  simp [HandleEmployeeUpdate, UpdateEmployee, h]

theorem update_of_present {s : EmployeeStore} {e v : Employee}
    (h : s.employees.lookup e.ID = some v) :
    HandleEmployeeUpdate s (some e) =
      (writeEmployee 200 e, { s with employees := s.employees.insert e.ID e }) := by
  simp [HandleEmployeeUpdate, UpdateEmployee, h]

theorem deleteAndRespond_of_absent {s : EmployeeStore} {k : Int}
    (h : s.employees.lookup k = none) :
    deleteAndRespond s k = (httpError "Employee not found" 404, s) := by
  simp [deleteAndRespond, DeleteEmployee, h]

theorem deleteAndRespond_of_present {s : EmployeeStore} {k : Int} {v : Employee}
    (h : s.employees.lookup k = some v) :
    deleteAndRespond s k =
      ({ status := 200, body := Body.empty }, { s with employees := s.employees.erase k }) := by
  simp [deleteAndRespond, DeleteEmployee, h]

theorem deletion_of_id {s : EmployeeStore} {idStr : String} {body : DeleteBody} {k : Int}
    (h : (idStr ≠ "" ∧ Atoi idStr = some k) ∨ (idStr = "" ∧ decodeDeleteRequest body = some k)) :
    HandleEmployeeDeletion s idStr body = deleteAndRespond s k := by
  unfold HandleEmployeeDeletion
  rcases h with ⟨h1, h2⟩ | ⟨h1, h2⟩
  · rw [if_pos h1, h2]
  · rw [if_neg (not_not.mpr h1), h2]

theorem deletion_of_bad_id (s : EmployeeStore) {idStr : String} (body : DeleteBody)
    (h1 : idStr ≠ "") (h2 : Atoi idStr = none) :
    HandleEmployeeDeletion s idStr body = (httpError "Invalid employee ID" 400, s) := by
  unfold HandleEmployeeDeletion
  rw [if_pos h1, h2]

theorem status_writeEmployee (code : Nat) (e : Employee) : (writeEmployee code e).status = code :=
  rfl

theorem status_httpError (msg : String) (code : Nat) : (httpError msg code).status = code :=
  rfl

theorem paginationLoop_mem (L : List Employee) :
    ∀ (offset limit : Int) (acc : Slice Employee) (e : Employee),
      e ∈ (paginationLoop L offset limit acc).toList → e ∈ acc.toList ∨ e ∈ L := by
  induction L with
  | nil =>
    intro offset limit acc e he
    exact Or.inl he
  | cons emp rest ih =>
    intro offset limit acc e he
    unfold paginationLoop at he
    split at he
    · rcases ih _ _ _ _ he with h | h
      · exact Or.inl h
      · exact Or.inr (List.mem_cons_of_mem emp h)
    · split at he
      · exact Or.inl he
      · rcases ih _ _ _ _ he with h | h
        · rw [toList_append] at h
          rcases List.mem_append.mp h with h | h
          · exact Or.inl h
          · rw [List.mem_singleton] at h
            subst h
            exact Or.inr (List.mem_cons_self _ _)
        · exact Or.inr (List.mem_cons_of_mem emp h)

theorem page_subset (s : EmployeeStore) (offset limit : Int) (e : Employee)
    (he : e ∈ (ListEmployeesWithPagination s offset limit).toList) :
    e ∈ rangeValues s.employees := by
  rcases paginationLoop_mem _ _ _ _ _ he with h | h
  · rw [toList_nil] at h
    exact absurd h (List.not_mem_nil e)
  · exact h

theorem not_listed_of_absent {s : EmployeeStore} (h : KeyIsID s) {k : Int}
    (hk : s.employees.lookup k = none) (e : Employee) (he : e ∈ rangeValues s.employees) :
    e.ID ≠ k := by
  intro hid
  have := (mem_rangeValues_iff h e).mp he
  rw [hid, hk] at this
  exact absurd this (by simp)

/-- C13: from a store the program can build that has no employee with ID 1, the POST of
`{id 1, name A, position Eng, salary 1000}` answers 201 and echoes the record; the PUT of the
same ID with another salary then answers 200 and `GetEmployeeByID 1` returns the record with
that salary; the DELETE with the query `id=1` then answers 200, and afterwards neither
`ListEmployees` nor any page of `ListEmployeesWithPagination` holds an employee with ID 1. -/
theorem end_to_end (s : EmployeeStore) (salary : Nat) (body : DeleteBody)
    (hs : Reachable s) (h1 : (1 : Int) ∉ s.employees) :
    (HandleEmployeeCreation s (some employeeA)).1 =
      { status := 201, body := Body.employee employeeA } ∧
    (HandleEmployeeUpdate (afterPost s) (some (employeeAPaid salary))).1.status
      = 200 ∧
    GetEmployeeByID (afterPut s salary) 1 = (employeeAPaid salary, true) ∧
    (GetEmployeeByID (afterPut s salary) 1).1.Salary = salary ∧
    (HandleEmployeeDeletion (afterPut s salary) "1" body).1.status = 200 ∧
    (∀ e ∈ (ListEmployees (afterDelete s salary body)).toList, e.ID ≠ 1) ∧
    ∀ offset limit, ∀ e ∈ (ListEmployeesWithPagination (afterDelete s salary body) offset
      limit).toList, e.ID ≠ 1 := by
  have hpost : HandleEmployeeCreation s (some employeeA) =
      (writeEmployee 201 employeeA, { employees := s.employees.insert 1 employeeA }) :=
    creation_of_absent (e := employeeA) (lookup_of_not_mem h1)
  have hs1 : afterPost s = { employees := s.employees.insert 1 employeeA } := by
    unfold afterPost
    rw [hpost]
  have hl1 : (afterPost s).employees.lookup 1 = some employeeA := by
    rw [hs1]
    exact AList.lookup_insert s.employees
  have hput : HandleEmployeeUpdate (afterPost s) (some (employeeAPaid salary)) =
      (writeEmployee 200 (employeeAPaid salary),
        { employees := (afterPost s).employees.insert 1 (employeeAPaid salary) }) :=
    update_of_present (e := employeeAPaid salary) hl1
  have hs2 : afterPut s salary =
      { employees := (afterPost s).employees.insert 1 (employeeAPaid salary) } := by
    unfold afterPut
    rw [hput]
  have hl2 : (afterPut s salary).employees.lookup 1 = some (employeeAPaid salary) := by
    rw [hs2]
    exact AList.lookup_insert (afterPost s).employees
  have hdel : HandleEmployeeDeletion (afterPut s salary) "1" body =
      ({ status := 200, body := Body.empty },
        { employees := (afterPut s salary).employees.erase 1 }) := by
    rw [deletion_of_id (k := 1) (Or.inl ⟨by decide, by decide⟩)]
    exact deleteAndRespond_of_present hl2
  have hs3 : afterDelete s salary body =
      { employees := (afterPut s salary).employees.erase 1 } := by
    unfold afterDelete
    rw [hdel]
  have hl3 : (afterDelete s salary body).employees.lookup 1 = none := by
    rw [hs3]
    exact AList.lookup_erase 1 (afterPut s salary).employees
  have hinv3 : KeyIsID (afterDelete s salary body) := by
    rw [hs3]
    apply keyIsID_erase
    rw [hs2]
    apply keyIsID_insert (e := employeeAPaid salary)
    rw [hs1]
    exact keyIsID_insert (e := employeeA) (keyIsID_of_reachable hs)
  refine ⟨?_, ?_, ?_, ?_, ?_, ?_, ?_⟩
  · rw [hpost]
    rfl
  · rw [hput]
    rfl
  · exact get_of_lookup_some hl2
  · rw [get_of_lookup_some hl2]
    rfl
  · rw [hdel]
  · intro e he
    rw [ListEmployees_toList] at he
    exact not_listed_of_absent hinv3 hl3 e he
  · intro offset limit e he
    exact not_listed_of_absent hinv3 hl3 e (page_subset _ offset limit e he)

theorem end_to_end_witness :
    Reachable storeWithZero ∧ (1 : Int) ∉ (DeleteEmployee storeWithZero 1).2.employees ∧
    ((HandleEmployeeCreation (DeleteEmployee storeWithZero 1).2 (some employeeA)).1 =
      { status := 201, body := Body.employee employeeA } ∧
    (HandleEmployeeUpdate (afterPost (DeleteEmployee storeWithZero 1).2)
      (some (employeeAPaid 4656510908468559872))).1.status = 200 ∧
    GetEmployeeByID (afterPut (DeleteEmployee storeWithZero 1).2 4656510908468559872) 1 =
      (employeeAPaid 4656510908468559872, true) ∧
    (GetEmployeeByID (afterPut (DeleteEmployee storeWithZero 1).2 4656510908468559872)
      1).1.Salary = 4656510908468559872 ∧
    (HandleEmployeeDeletion (afterPut (DeleteEmployee storeWithZero 1).2 4656510908468559872)
      "1" DeleteBody.invalid).1.status = 200 ∧
    (∀ e ∈ (ListEmployees (afterDelete (DeleteEmployee storeWithZero 1).2 4656510908468559872
      DeleteBody.invalid)).toList, e.ID ≠ 1) ∧
    ∀ offset limit, ∀ e ∈ (ListEmployeesWithPagination (afterDelete
      (DeleteEmployee storeWithZero 1).2 4656510908468559872 DeleteBody.invalid) offset
      limit).toList, e.ID ≠ 1) :=
  ⟨Reachable.create _ unnumbered (Reachable.create _ shivangi Reachable.new), by decide,
    end_to_end (DeleteEmployee storeWithZero 1).2 4656510908468559872 DeleteBody.invalid
      (Reachable.delete _ 1
        (Reachable.create _ unnumbered (Reachable.create _ shivangi Reachable.new)))
      (by decide)⟩

/-- C14: with a decoded body `e`, the POST handler answers 400 exactly when the ID of `e` is
present and never answers 404, the PUT handler answers 404 exactly when it is absent and never
answers 400; with a request whose identifier `k` was read (from the query `id`, or from the
body when the query has none), the DELETE handler answers 404 exactly when `k` is absent and
never answers 400.  In each of the three error cases the store is left as it was. -/
theorem handler_errors (s : EmployeeStore) (e : Employee) (idStr : String) (body : DeleteBody)
    (k : Int)
    (hreq : (idStr ≠ "" ∧ Atoi idStr = some k) ∨
      (idStr = "" ∧ decodeDeleteRequest body = some k)) :
    ((HandleEmployeeCreation s (some e)).1.status = 400 ↔ e.ID ∈ s.employees) ∧
    (e.ID ∈ s.employees → (HandleEmployeeCreation s (some e)).2 = s) ∧
    (HandleEmployeeCreation s (some e)).1.status ≠ 404 ∧
    ((HandleEmployeeUpdate s (some e)).1.status = 404 ↔ e.ID ∉ s.employees) ∧
    (e.ID ∉ s.employees → (HandleEmployeeUpdate s (some e)).2 = s) ∧
    (HandleEmployeeUpdate s (some e)).1.status ≠ 400 ∧
    ((HandleEmployeeDeletion s idStr body).1.status = 404 ↔ k ∉ s.employees) ∧
    (k ∉ s.employees → (HandleEmployeeDeletion s idStr body).2 = s) ∧
    (HandleEmployeeDeletion s idStr body).1.status ≠ 400 := by
  rw [deletion_of_id hreq]
  have post : ((HandleEmployeeCreation s (some e)).1.status = 400 ↔ e.ID ∈ s.employees) ∧
      (e.ID ∈ s.employees → (HandleEmployeeCreation s (some e)).2 = s) ∧
      (HandleEmployeeCreation s (some e)).1.status ≠ 404 := by
    by_cases h : e.ID ∈ s.employees
    · obtain ⟨v, hv⟩ := lookup_of_mem h
      rw [creation_of_present hv]
      simp [status_httpError, h]
    · rw [creation_of_absent (lookup_of_not_mem h)]
      simp [status_writeEmployee, h]
  have put : ((HandleEmployeeUpdate s (some e)).1.status = 404 ↔ e.ID ∉ s.employees) ∧
      (e.ID ∉ s.employees → (HandleEmployeeUpdate s (some e)).2 = s) ∧
      (HandleEmployeeUpdate s (some e)).1.status ≠ 400 := by
    by_cases h : e.ID ∈ s.employees
    · obtain ⟨v, hv⟩ := lookup_of_mem h
      rw [update_of_present hv]
      simp [status_writeEmployee, h]
    · rw [update_of_absent (lookup_of_not_mem h)]
      simp [status_httpError, h]
  have del : ((deleteAndRespond s k).1.status = 404 ↔ k ∉ s.employees) ∧
      (k ∉ s.employees → (deleteAndRespond s k).2 = s) ∧
      (deleteAndRespond s k).1.status ≠ 400 := by
    by_cases h : k ∈ s.employees
    · obtain ⟨v, hv⟩ := lookup_of_mem h
      rw [deleteAndRespond_of_present hv]
      simp [h]
    · rw [deleteAndRespond_of_absent (lookup_of_not_mem h)]
      simp [status_httpError, h]
  exact ⟨post.1, post.2.1, post.2.2, put.1, put.2.1, put.2.2, del.1, del.2.1, del.2.2⟩

theorem handler_errors_witness :
    ((("7" : String) ≠ "" ∧ Atoi "7" = some 7) ∨
      (("7" : String) = "" ∧ decodeDeleteRequest DeleteBody.invalid = some 7)) ∧
    (((HandleEmployeeCreation storeOne (some shivani)).1.status = 400 ↔
      shivani.ID ∈ storeOne.employees) ∧
    (shivani.ID ∈ storeOne.employees → (HandleEmployeeCreation storeOne (some shivani)).2 =
      storeOne) ∧
    (HandleEmployeeCreation storeOne (some shivani)).1.status ≠ 404 ∧
    ((HandleEmployeeUpdate storeOne (some shivani)).1.status = 404 ↔
      shivani.ID ∉ storeOne.employees) ∧
    (shivani.ID ∉ storeOne.employees → (HandleEmployeeUpdate storeOne (some shivani)).2 =
      storeOne) ∧
    (HandleEmployeeUpdate storeOne (some shivani)).1.status ≠ 400 ∧
    ((HandleEmployeeDeletion storeOne "7" DeleteBody.invalid).1.status = 404 ↔
      (7 : Int) ∉ storeOne.employees) ∧
    ((7 : Int) ∉ storeOne.employees →
      (HandleEmployeeDeletion storeOne "7" DeleteBody.invalid).2 = storeOne) ∧
    (HandleEmployeeDeletion storeOne "7" DeleteBody.invalid).1.status ≠ 400) :=
  ⟨Or.inl ⟨by decide, by decide⟩,
    handler_errors storeOne shivani "7" DeleteBody.invalid 7 (Or.inl ⟨by decide, by decide⟩)⟩

/-- C15 (the code on a DELETE without identifier): with no `id` in the query and the body
`{}`, the decoded `delete_id` is the zero value 0, so `HandleEmployeeDeletion` deletes
employee 0 and answers 200 when the store holds one, and answers 404 when it does not; it
answers 400 in neither case. -/
theorem deletion_without_identifier :
    decodeDeleteRequest (DeleteBody.object none) = some 0 ∧
    GetEmployeeByID storeWithZero 0 = (unnumbered, true) ∧
    (HandleEmployeeDeletion storeWithZero "" (DeleteBody.object none)).1 =
      { status := 200, body := Body.empty } ∧
    GetEmployeeByID (HandleEmployeeDeletion storeWithZero "" (DeleteBody.object none)).2 0 =
      (zeroEmployee, false) ∧
    (HandleEmployeeDeletion storeWithZero "" (DeleteBody.object none)).2 = storeOne ∧
    (HandleEmployeeDeletion storeOne "" (DeleteBody.object none)).1 =
      { status := 404, body := Body.text "Employee not found" } :=
  ⟨by decide, by decide, by decide, by decide, rfl, by decide⟩

/-- C16 (the code on a page without employees): on the empty store, and on a store with one
employee asked for its second page, `HandleAllEmployeesRetrieval` answers 200 with the JSON
value `null`, which is not an array: the listing is the `nil` slice. -/
theorem retrieval_empty_page :
    ListEmployeesWithPagination NewEmployeeStore 0 10 = Slice.nil ∧
    HandleAllEmployeesRetrieval NewEmployeeStore "" "" =
      { status := 200, body := Body.employees JsonEmployees.null } ∧
    HandleAllEmployeesRetrieval storeOne "2" "10" =
      { status := 200, body := Body.employees JsonEmployees.null } ∧
    Body.employees JsonEmployees.null ≠ Body.employees (JsonEmployees.array []) := by
  decide

/-- C18: for identifiers `j` and `k` that differ and an employee `e` with ID `k`,
`GetEmployeeByID j` answers the same after `CreateEmployee e`, after `UpdateEmployee e` and
after `DeleteEmployee k` as before, whether the call succeeds or not. -/
theorem other_keys_untouched (s : EmployeeStore) (k j : Int) (e : Employee)
    (hjk : j ≠ k) (he : e.ID = k) :
    GetEmployeeByID (CreateEmployee s e).2 j = GetEmployeeByID s j ∧
    GetEmployeeByID (UpdateEmployee s e).2 j = GetEmployeeByID s j ∧
    GetEmployeeByID (DeleteEmployee s k).2 j = GetEmployeeByID s j := by
  subst he
  have hins : GetEmployeeByID { s with employees := s.employees.insert e.ID e } j =
      GetEmployeeByID s j := by
    unfold GetEmployeeByID
    rw [show ({ s with employees := s.employees.insert e.ID e } : EmployeeStore).employees =
      s.employees.insert e.ID e from rfl, AList.lookup_insert_ne hjk]
  have hers : GetEmployeeByID { s with employees := s.employees.erase e.ID } j =
      GetEmployeeByID s j := by
    unfold GetEmployeeByID
    rw [show ({ s with employees := s.employees.erase e.ID } : EmployeeStore).employees =
      s.employees.erase e.ID from rfl, AList.lookup_erase_ne hjk]
  refine ⟨?_, ?_, ?_⟩
  · unfold CreateEmployee
    split
    · rfl
    · exact hins
  · unfold UpdateEmployee
    split
    · rfl
    · exact hins
  · unfold DeleteEmployee
    split
    · rfl
    · exact hers

theorem other_keys_untouched_witness :
    (2 : Int) ≠ 1 ∧ shivani.ID = 1 ∧
    GetEmployeeByID (CreateEmployee storeTwo shivani).2 2 = GetEmployeeByID storeTwo 2 ∧
    GetEmployeeByID (UpdateEmployee storeTwo shivani).2 2 = GetEmployeeByID storeTwo 2 ∧
    GetEmployeeByID (DeleteEmployee storeTwo 1).2 2 = GetEmployeeByID storeTwo 2 :=
  ⟨by decide, rfl, other_keys_untouched storeTwo 1 2 shivani (by decide) rfl⟩

/-- C20 (the code on a page number whose offset overflows): the limit passed to
`ListEmployeesWithPagination` is always at least 1, but for `page=2305843009213693953` and
`perPage=4` the product `(page - 1) * perPage` is `2^63`, which wraps to the negative offset
`-2^63`; the loop skips nothing and the handler answers with the first employees although the
page lies far beyond the last one. -/
theorem retrieval_offset_overflow :
    parsePage "2305843009213693953" = 2305843009213693953 ∧
    parsePerPage "4" = 4 ∧
    pageOffset (parsePage "2305843009213693953") (parsePerPage "4") = -9223372036854775808 ∧
    pageOffset (parsePage "2305843009213693953") (parsePerPage "4") < 0 ∧
    HandleAllEmployeesRetrieval storeOne "2305843009213693953" "4" =
      { status := 200, body := Body.employees (JsonEmployees.array [shivangi]) } := by
  decide

/-! ## Consecutive pages -/

end Employeedb
